import Mathlib

/-!
Shallow embedding of the governance kernel of this repository: the Banach
curation operator, the perspective-intelligence curator, the recursive
repair runtime, the TAS_K micro-kernel, the sovereign-action validators,
the quiescent-sufficiency transport gate, and the immutable truth ledger.
Definitions are translated from the TypeScript sources; theorems settle
the specified properties against them.
-/

deriving instance DecidableEq for Except

namespace Spec2Proof

/-! ### Decimal serialization of numbers

JavaScript coerces numbers to their decimal string form inside
Array.prototype.join; we model that coercion for the integer-valued
fields of a gene and prove it injective, which is what the hash-payload
arguments need. -/

/-- Little-endian decimal digit characters of n, structurally recursive on
a fuel bound; the fuel suffices whenever n ≤ fuel. -/
def natSerialAux : Nat → Nat → List Char
  | 0, _ => []
  | fuel + 1, n =>
    if n = 0 then [] else Nat.digitChar (n % 10) :: natSerialAux fuel (n / 10)

/-- Decimal string of a natural number, most significant digit first,
modelling the JavaScript number-to-string coercion. -/
def natSerial (n : Nat) : String :=
  if n = 0 then "0" else ⟨(natSerialAux n n).reverse⟩

/-- Decimal string of an integer, with a leading minus sign for negatives. -/
def intSerial : Int → String
  | .ofNat m => natSerial m
  | .negSucc m => "-" ++ natSerial (m + 1)

/-! ### JavaScript string helpers -/

/-- Whitespace predicate backing the trim operation of the JavaScript
String.prototype.trim (ASCII range). -/
def jsWhitespace (c : Char) : Bool :=
  c == ' ' || c == '\t' || c == '\n' || c == '\r' ||
    c == Char.ofNat 11 || c == Char.ofNat 12

/-- Model of String.prototype.trim on a character list: strip whitespace
from both ends. -/
def jsTrimList (l : List Char) : List Char :=
  ((l.dropWhile jsWhitespace).reverse.dropWhile jsWhitespace).reverse

/-- ASCII lower-casing of one character, as performed by the case-insensitive
regular-expression flag on the ASCII patterns involved. -/
def jsToLower (c : Char) : Char :=
  if 65 ≤ c.toNat ∧ c.toNat ≤ 90 then Char.ofNat (c.toNat + 32) else c

/-- Substring search: does pat occur contiguously inside l. -/
def hasSub (pat : List Char) : List Char → Bool
  | [] => pat == []
  | c :: rest => pat.isPrefixOf (c :: rest) || hasSub pat rest

/-! ### Banach curation operator

Translated from BanachCurationOperator in banach-curation.ts. The f64
arithmetic of the source is embedded into the rationals; PHI is the
decimal literal of the source and K = 1 / PHI. -/

/-- Number of distinct characters of the content, the Set-size computation
of calculateMetric. -/
def distinctCount (c : List Char) : Nat := c.dedup.length

/-- Model of BanachCurationOperator.calculateMetric: length times the
entropy density distinctCount / min(length, 128); zero for empty content. -/
def metricQ (c : List Char) : ℚ :=
  if c.length = 0 then 0
  else (c.length : ℚ) * ((distinctCount c : ℚ) / ((min c.length 128 : Nat) : ℚ))

/-- The golden-ratio literal of the source. -/
def phiQ : ℚ := 1618033988749895 / 10 ^ 15

/-- Lipschitz constant K = 1 / PHI of the source. -/
def kQ : ℚ := 1 / phiQ

/-- Floating-point tolerance used by verifyContraction. -/
def epsQ : ℚ := 1 / 1000

/-- One execution of the trimming while-loop of BanachCurationOperator.apply.
The fuel argument is always 100 minus the iteration counter, so the
structural recursion terminates exactly when the iteration cap of the
source loop does; each pass removes max(1, floor(length / 10)) characters
from the end unless the content is shorter than 50 characters, in which
case the loop breaks. -/
def applyGo (target : ℚ) : Nat → Nat → List Char → List Char × Nat
  | 0, iter, c => (c, iter)
  | fuel + 1, iter, c =>
    if target < metricQ c ∧ iter < 100 ∧ 0 < c.length then
      if c.length < 50 then (c, iter)
      else applyGo target fuel (iter + 1) (c.take (c.length - max 1 (c.length / 10)))
    else (c, iter)

/-- Model of BanachCurationOperator.apply: contract toward the target
distance metricQ c * K. -/
def applyOp (c : List Char) : List Char := (applyGo (metricQ c * kQ) 100 0 c).1

/-- Number of trimming iterations the apply loop executed. -/
def applyIter (c : List Char) : Nat := (applyGo (metricQ c * kQ) 100 0 c).2

/-- Model of BanachCurationOperator.verifyContraction. -/
def verifyContraction (original transformed : List Char) : Bool :=
  metricQ transformed ≤ metricQ original * kQ + epsQ

/-! ### TAS_K micro-kernel

Translated from TASKMicroKernel in tas-k-micro-kernel.ts. -/

/-- The sincerity-filter pattern of the micro-kernel: a case-insensitive
match of destroy, violate or drift anywhere in the input. -/
def violationHit (input : List Char) : Bool :=
  let l := input.map jsToLower
  hasSub "destroy".toList l || hasSub "violate".toList l || hasSub "drift".toList l

/-- Model of TASKMicroKernel.verify: empty or whitespace-only input is
inadmissible, as is any input matching the violation pattern. -/
def taskVerify (input : List Char) : Bool :=
  if (jsTrimList input).length = 0 then false
  else if violationHit input then false
  else true

/-! ### Sovereign actions and validators

Translated from types.ts and the two validateSovereignAction variants in
sovereign-leader.ts. Fields that the runtime may leave undefined are
options. -/

structure SovereignAuthority where
  actor_id : Option String
  revocation_ref : Option String
  deriving DecidableEq

structure SovereignAnchor where
  parent_hash : Option String
  payload_hash : Option String
  block_hash : Option String
  deriving DecidableEq

structure SovereignProof where
  threshold_tau : ℚ
  deriving DecidableEq

structure SovereignVerification where
  phi_score : ℚ
  deriving DecidableEq

structure SovereignAction where
  authority : Option SovereignAuthority
  anchor : Option SovereignAnchor
  proof : Option SovereignProof
  verification : Option SovereignVerification
  deriving DecidableEq

/-- JavaScript falsiness of an optional string: undefined or empty. -/
def jsFalsyStr : Option String → Bool
  | none => true
  | some s => s == ""

/-- Blankness as tested by the validators: undefined, or whitespace-only. -/
def isBlankStr : Option String → Bool
  | none => true
  | some s => (jsTrimList s.data).length == 0

/-- Model of validateSovereignAction, the variant with proof and
verification checks. A some result is the code string of the
SovereignViolationError the source throws; none means admissible. -/
def validateSovereignAction (a : SovereignAction) : Option String :=
  match a.authority with
  | none => some "MISSING_AUTHORITY"
  | some auth =>
    if isBlankStr auth.revocation_ref then some "MISSING_REVOCATION"
    else
      match a.anchor with
      | none => some "MISSING_ANCHOR"
      | some anc =>
        if jsFalsyStr anc.parent_hash then some "INVALID_ANCHOR"
        else if jsFalsyStr anc.payload_hash then some "INVALID_ANCHOR"
        else
          match a.proof with
          | none => some "MISSING_PROOF"
          | some p =>
            if 1 < p.threshold_tau then some "HAMILTONIAN_DRIFT"
            else
              match a.verification with
              | none => some "MISSING_VERIFICATION"
              | some v =>
                if v.phi_score < 5 then some "LOW_PHI_SCORE"
                else none

/-- Model of the other validateSovereignAction variant (SOV-LEAD-001,
authority and anchoring checks only, no proof or verification checks);
this is the variant whose checks the loom orchestration can pass. The
some result carries the distinguishing part of the message. -/
def validateSovereignActionLead (a : SovereignAction) : Option String :=
  match a.authority with
  | none => some "authority is required"
  | some auth =>
    if isBlankStr auth.revocation_ref then
      some "authority lacks revocation capability (revocation_ref)"
    else
      match a.anchor with
      | none => some "action must be anchored (anchor is required)"
      | some anc =>
        if isBlankStr anc.parent_hash then some "anchor.parent_hash is required (parent_hash)"
        else if isBlankStr anc.payload_hash then some "anchor.payload_hash is required (payload_hash)"
        else none

/-! ### Human seed, verified genes, curation engine, repair runtime -/

structure HumanSeed where
  api_key : String
  genesis_hash : String
  deriving DecidableEq

structure VerifiedGene where
  content : List Char
  signature : String
  genesis_hash : String
  raw_prompt : List Char
  human_seed : HumanSeed
  deriving DecidableEq

/-- Injective stand-in for the hex SHA-256 digest computed through
node:crypto createHash. -/
def modelSha256 (l : List Char) : String := ⟨'#' :: l⟩

structure CurationOutput where
  content : List Char
  pi : ℚ
  delta : ℚ
  deriving DecidableEq

/-- Model of PerspectiveIntelligenceEngine.calculateDiameter: the constant
anchor strength 256. -/
def curateDiameter : ℚ := 256

/-- Model of PerspectiveIntelligenceEngine.curate. The initial PI ratio
metric / diameter is tested against the threshold 10 before contraction;
the verifyContraction call of the source discards its result and is
therefore not represented. -/
def curate (rawInput : List Char) (seed : HumanSeed) : Option CurationOutput :=
  let cInit := metricQ rawInput
  let piInit := cInit / curateDiameter
  if 10 < piInit then none
  else
    let contracted := applyOp rawInput
    some { content := contracted
           pi := metricQ contracted / curateDiameter
           delta := metricQ contracted }

/-- Model of RecursiveRuntime.recompute: re-apply the Banach operator to
the failed state and succeed only when the recomputed metric contracts
against the original failure. -/
def recompute (failedState : List Char) (seed : HumanSeed) : Option VerifiedGene :=
  let deltaFailed := metricQ failedState
  let targetDelta := deltaFailed * kQ
  let recomputedContent := applyOp failedState
  let recomputedDelta := metricQ recomputedContent
  if recomputedDelta ≤ targetDelta then
    some { content := recomputedContent
           signature := modelSha256 (recomputedContent ++ seed.genesis_hash.data ++ "REACTION".data)
           genesis_hash := seed.genesis_hash
           raw_prompt := failedState
           human_seed := seed }
  else none

/-! ### Triadic knowledge engine (loom) and persistent root kernel -/

structure LoomOutcome where
  result : Except String VerifiedGene
  repairCalls : Nat

/-- The sovereign action the loom synthesizes before weaving. -/
def weaveAction (contentToWeave : List Char) (seed : HumanSeed) : SovereignAction :=
  { authority := some { actor_id := none, revocation_ref := some seed.genesis_hash }
    anchor := some { parent_hash := some "genesis"
                     payload_hash := some (modelSha256 contentToWeave)
                     block_hash := none }
    proof := none
    verification := none }

/-- Validation and weaving step of execute_loom after the content to weave
has been fixed. -/
def weaveStep (contentToWeave raw : List Char) (seed : HumanSeed) :
    Except String VerifiedGene :=
  match validateSovereignActionLead (weaveAction contentToWeave seed) with
  | some msg => .error ("Sovereign Violation: " ++ msg)
  | none =>
    .ok { content := contentToWeave
          signature := modelSha256 (contentToWeave ++ seed.genesis_hash.data)
          genesis_hash := seed.genesis_hash
          raw_prompt := raw
          human_seed := seed }

/-- Model of TriadicKnowledgeEngine.execute_loom, instrumented with the
number of Repair Engine invocations so that the bounded-repair property is
observable. -/
def execute_loom (raw_input : List Char) (human_seed : HumanSeed) : LoomOutcome :=
  if taskVerify raw_input = false then
    { result := .error "Input violates Sovereign Integrity Axioms (TAS_K Rejection)."
      repairCalls := 0 }
  else
    match curate raw_input human_seed with
    | some curated =>
      { result := weaveStep curated.content raw_input human_seed, repairCalls := 0 }
    | none =>
      match recompute raw_input human_seed with
      | some reAction =>
        { result := weaveStep reAction.content raw_input human_seed, repairCalls := 1 }
      | none =>
        { result := .error "Input failed Perspective Intelligence curation (PI ratio exceeded) and Recursive Repair failed."
          repairCalls := 1 }

inductive InterceptResult
  | verified_output (content : List Char)
  | silence (reason : String)
  deriving DecidableEq

def InterceptResult.isSilence : InterceptResult → Bool
  | verified_output _ => false
  | silence _ => true

/-- Model of PersistentRootKernel.evaluate_cognitive_stream. The hardware
anchor environment flag and the enclave-generated seed are parameters; the
ledger broadcast does not influence the returned InterceptResult shape we
reason about. -/
def evaluateCognitiveStream (anchorOffline : Bool) (seed : HumanSeed)
    (raw_prompt : List Char) : InterceptResult :=
  if anchorOffline then .silence "Hardware Anchor Offline. Cannot verify I_0."
  else
    match (execute_loom raw_prompt seed).result with
    | .ok gene => .verified_output gene.content
    | .error msg => .silence ("Phoenix Protocol Activated: " ++ msg)

/-! ### Quiescent sufficiency transport gate

Translated from the quiescent-sufficiency implementation: QSState,
QSRequest, SignedReceipt, QSResult, computeStateHash, checkAdmissibility,
executeDeterministically, signReceipt and processRequest. The request
canonicalization (JSON.stringify guarded by try/catch) is a parameter,
since its failure mode is a runtime exception; the wall clock is a
parameter. -/

structure QSState where
  ledgerHead : String
  policyVersion : String
  witnessQuorum : List String
  appendCount : Nat
  deriving DecidableEq

/-- The parts of the untyped request payload the gate inspects: JavaScript
falsiness, and an ambiguous field on object payloads. -/
inductive QSPayload
  | falsy
  | objAmbiguous (ambiguous : Bool)
  | otherTruthy
  deriving DecidableEq

structure QSRequest where
  actionType : String
  payload : QSPayload
  witnesses : Option (List String)
  nonce : Option String
  deriving DecidableEq

structure SignedReceipt where
  type : String
  reason : Option String
  requestHash : String
  stateHashBefore : String
  stateHashAfter : String
  artifacts : List String
  timestamp : Nat
  signature : String
  deriving DecidableEq

inductive QSResult
  | executedReceipt (receipt : SignedReceipt) (newState : QSState)
  | refusalReceipt (receipt : SignedReceipt) (newState : QSState)
  | quiescentNoop (newState : QSState)
  deriving DecidableEq

/-- Deterministic serialization standing for the JSON encoding of the
state fields in fixed order, with the witness quorum sorted as the source
sorts it. -/
def encodeState (s : QSState) : String :=
  s.ledgerHead ++ "|" ++ s.policyVersion ++ "|" ++
    String.intercalate "," (s.witnessQuorum.mergeSort (fun a b => a ≤ b)) ++
    "|" ++ natSerial s.appendCount

/-- Model of computeStateHash. -/
def computeStateHash (s : QSState) : String := modelSha256 (encodeState s).data

/-- Deterministic serialization standing for JSON.stringify of a request. -/
def encodeRequest (r : QSRequest) : String :=
  r.actionType ++ "|" ++
    (match r.payload with
      | .falsy => "F"
      | .objAmbiguous true => "A1"
      | .objAmbiguous false => "A0"
      | .otherTruthy => "T") ++ "|" ++
    (match r.witnesses with
      | none => "-"
      | some ws => String.intercalate "," ws) ++ "|" ++
    (match r.nonce with
      | none => "-"
      | some n => n)

/-- Model of checkAdmissibility: a some result is the refusal reason. -/
def checkAdmissibility (request : QSRequest) (state : QSState) : Option String :=
  if request.actionType == "" || request.payload == QSPayload.falsy then
    some "INVALID_SCHEMA: Missing actionType or payload"
  else if 0 < state.witnessQuorum.length &&
      (match request.witnesses with
        | none => true
        | some ws => ws.length < 1) then
    some "INSUFFICIENT_WITNESS: Quorum not met"
  else if request.payload == QSPayload.objAmbiguous true then
    some "AMBIGUOUS_INPUT: Payload is ambiguous"
  else none

/-- Model of executeDeterministically: bump the append count, advance the
ledger head, and emit artifacts for the two special action types. -/
def executeDeterministically (request : QSRequest) (state : QSState) :
    QSState × List String :=
  let newAppendCount := state.appendCount + 1
  let newLedgerHead := modelSha256 (state.ledgerHead ++ encodeRequest request).data
  let newState : QSState :=
    { state with appendCount := newAppendCount, ledgerHead := newLedgerHead }
  let artifacts : List String :=
    if request.actionType == "GENERATE_ARTIFACT" then
      ["artifact-" ++ natSerial newAppendCount ++ ".txt"]
    else if request.actionType == "FORCE_EMISSION_FAILURE" then
      ["unauthorized-artifact.txt"]
    else []
  (newState, artifacts)

/-- Model of signReceipt. -/
def signReceipt (rtype : String) (requestHash : String)
    (stateBefore stateAfter : QSState) (reason : Option String)
    (artifacts : Option (List String)) (now : Nat) : SignedReceipt :=
  { type := rtype
    reason := reason
    requestHash := requestHash
    stateHashBefore := computeStateHash stateBefore
    stateHashAfter := computeStateHash stateAfter
    artifacts := artifacts.getD []
    timestamp := now
    signature := "mock-signature-over-receipt-content" }

/-- Model of processRequest, the quiescent sufficiency gate QS-001. -/
def processRequest (canon : QSRequest → Option String) (now : Nat)
    (request : Option QSRequest) (state : QSState) : QSResult :=
  match request with
  | none => .quiescentNoop state
  | some req =>
    match canon req with
    | none =>
      .refusalReceipt
        (signReceipt "REFUSAL" "INVALID_CANONICALIZATION" state state
          (some "Canonicalization failed") none now) state
    | some requestHash =>
      match checkAdmissibility req state with
      | some reason =>
        .refusalReceipt
          (signReceipt "REFUSAL" requestHash state state (some reason) none now) state
      | none =>
        let ed := executeDeterministically req state
        if req.actionType ≠ "GENERATE_ARTIFACT" ∧ 0 < ed.2.length then
          .refusalReceipt
            (signReceipt "REFUSAL" requestHash state state
              (some "EMISSION_GATE_VIOLATION: Unexpected artifacts") none now) state
        else
          .executedReceipt
            (signReceipt "EXECUTED" requestHash state ed.1 none (some ed.2) now) ed.1

/-! ### Immutable truth ledger

Translated from ITL_Node in immutable-truth-ledger.ts. The SHA-256 hash of
the serialized gene payload is a parameter hashFn; collision resistance is
assumed as injectivity where a theorem needs it. Errors are the three
distinct PhoenixError throw sites of append. -/

structure TAS_Gene where
  gene_id : String
  sequence : Int
  content : String
  parent_hash : String
  mu_manifest : String
  phi_score : Int
  timestamp : Int
  proof : Option String
  deriving DecidableEq

/-- The fixed-order serialized hash payload of calculateHash: the seven
fields joined with a pipe separator, numeric fields in decimal. -/
def payloadChars (g : TAS_Gene) : List Char :=
  g.gene_id.data ++ '|' :: (intSerial g.sequence).data ++ '|' :: g.content.data ++
    '|' :: g.parent_hash.data ++ '|' :: g.mu_manifest.data ++
    '|' :: (intSerial g.phi_score).data ++ '|' :: (intSerial g.timestamp).data

structure ITL_Entry where
  gene : TAS_Gene
  hash : String
  signature : String
  deriving DecidableEq

inductive LedgerError
  | continuityViolation
  | sequenceViolation
  | missingProof
  deriving DecidableEq

/-- Model of ITL_Node.calculateHash. -/
def calculateHash (hashFn : List Char → String) (g : TAS_Gene) : String :=
  hashFn (payloadChars g)

/-- The entry a genesis append pushes. -/
def genesisEntry (hashFn : List Char → String) (g : TAS_Gene) : ITL_Entry :=
  { gene := g, hash := calculateHash hashFn g
    signature := "genesis-signature-placeholder" }

/-- Model of ITL_Node.append. The ledger list is passed and returned
explicitly; a thrown PhoenixError is an error result, and the ledger is
then unchanged. -/
def append (hashFn : List Char → String) (ledger : List ITL_Entry)
    (gene : TAS_Gene) : Except LedgerError (List ITL_Entry) :=
  let currentHash := calculateHash hashFn gene
  match ledger.getLast? with
  | none => .ok (ledger ++ [genesisEntry hashFn gene])
  | some lastEntry =>
    if gene.parent_hash ≠ lastEntry.hash then .error .continuityViolation
    else if gene.sequence ≠ lastEntry.gene.sequence + 1 then .error .sequenceViolation
    else if gene.proof = none then .error .missingProof
    else .ok (ledger ++
        [{ gene := gene, hash := currentHash
           signature := "sig-" ++ ⟨currentHash.data.take 8⟩ }])

/-- Model of ITL_Node.getTip. -/
def getTip (ledger : List ITL_Entry) : Option ITL_Entry := ledger.getLast?

/-- The pairwise check of verifyChain: parent linkage and hash
recomputation for the current entry. -/
def chainCheck (hashFn : List Char → String) (prev curr : ITL_Entry) : Bool :=
  (curr.gene.parent_hash == prev.hash) && (curr.hash == calculateHash hashFn curr.gene)

/-- The loop of verifyChain, walking from the second entry on. -/
def verifyFrom (hashFn : List Char → String) (prev : ITL_Entry) :
    List ITL_Entry → Bool
  | [] => true
  | curr :: rest => chainCheck hashFn prev curr && verifyFrom hashFn curr rest

/-- Model of ITL_Node.verifyChain: true when the walk succeeds, false
standing for a thrown PhoenixError. -/
def verifyChain (hashFn : List Char → String) : List ITL_Entry → Bool
  | [] => true
  | e :: rest => verifyFrom hashFn e rest

/-- A sequence of appends starting from the empty ledger, stopping at the
first failure. -/
def appendAll (hashFn : List Char → String) (gs : List TAS_Gene) :
    Except LedgerError (List ITL_Entry) :=
  gs.foldlM (append hashFn) []

/-- The relation underlying verifyChain between consecutive entries:
parent linkage and correctness of the stored hash of the later entry. -/
def chainR (hashFn : List Char → String) (p c : ITL_Entry) : Prop :=
  c.gene.parent_hash = p.hash ∧ c.hash = calculateHash hashFn c.gene

/-- Every entry stores the hash of its own gene. -/
def HashedEntries (hashFn : List Char → String) (l : List ITL_Entry) : Prop :=
  ∀ e ∈ l, e.hash = calculateHash hashFn e.gene

/-- Invariant of ledgers built by successful appends. -/
def WellFormedLedger (hashFn : List Char → String) (l : List ITL_Entry) : Prop :=
  List.Chain' (chainR hashFn) l ∧ HashedEntries hashFn l

/-- Two genes that differ in exactly one of the seven serialized fields. -/
def DiffOneField (g g' : TAS_Gene) : Prop :=
  (g'.gene_id ≠ g.gene_id ∧ g'.sequence = g.sequence ∧ g'.content = g.content ∧
    g'.parent_hash = g.parent_hash ∧ g'.mu_manifest = g.mu_manifest ∧
    g'.phi_score = g.phi_score ∧ g'.timestamp = g.timestamp) ∨
  (g'.gene_id = g.gene_id ∧ g'.sequence ≠ g.sequence ∧ g'.content = g.content ∧
    g'.parent_hash = g.parent_hash ∧ g'.mu_manifest = g.mu_manifest ∧
    g'.phi_score = g.phi_score ∧ g'.timestamp = g.timestamp) ∨
  (g'.gene_id = g.gene_id ∧ g'.sequence = g.sequence ∧ g'.content ≠ g.content ∧
    g'.parent_hash = g.parent_hash ∧ g'.mu_manifest = g.mu_manifest ∧
    g'.phi_score = g.phi_score ∧ g'.timestamp = g.timestamp) ∨
  (g'.gene_id = g.gene_id ∧ g'.sequence = g.sequence ∧ g'.content = g.content ∧
    g'.parent_hash ≠ g.parent_hash ∧ g'.mu_manifest = g.mu_manifest ∧
    g'.phi_score = g.phi_score ∧ g'.timestamp = g.timestamp) ∨
  (g'.gene_id = g.gene_id ∧ g'.sequence = g.sequence ∧ g'.content = g.content ∧
    g'.parent_hash = g.parent_hash ∧ g'.mu_manifest ≠ g.mu_manifest ∧
    g'.phi_score = g.phi_score ∧ g'.timestamp = g.timestamp) ∨
  (g'.gene_id = g.gene_id ∧ g'.sequence = g.sequence ∧ g'.content = g.content ∧
    g'.parent_hash = g.parent_hash ∧ g'.mu_manifest = g.mu_manifest ∧
    g'.phi_score ≠ g.phi_score ∧ g'.timestamp = g.timestamp) ∨
  (g'.gene_id = g.gene_id ∧ g'.sequence = g.sequence ∧ g'.content = g.content ∧
    g'.parent_hash = g.parent_hash ∧ g'.mu_manifest = g.mu_manifest ∧
    g'.phi_score = g.phi_score ∧ g'.timestamp ≠ g.timestamp)

/-! ### Concrete instances used by witnesses and counterexamples -/

/-- A canonicalization function that always fails, exercising the
try/catch null path of computeRequestHash. -/
def canonNone : QSRequest → Option String := fun _ => none

def qsStateA : QSState :=
  { ledgerHead := "h0", policyVersion := "v1", witnessQuorum := [], appendCount := 0 }

def qsReqA : QSRequest :=
  { actionType := "PING", payload := QSPayload.otherTruthy, witnesses := none, nonce := none }

def authA : SovereignAuthority := { actor_id := some "a", revocation_ref := some "r" }

def ancA : SovereignAnchor :=
  { parent_hash := some "p", payload_hash := some "h", block_hash := none }

/-- The drift-rejection scenario action: threshold_tau 1.5, phi_score 6.0. -/
def actDrift : SovereignAction :=
  { authority := some authA, anchor := some ancA
    proof := some { threshold_tau := mkRat 3 2 }
    verification := some { phi_score := 6 } }

/-- An action whose threshold_tau is 0, outside the admission window the
specification describes, with every other field valid. -/
def actZeroTau : SovereignAction :=
  { authority := some authA, anchor := some ancA
    proof := some { threshold_tau := 0 }
    verification := some { phi_score := 6 } }

/-- The low-resonance scenario action: phi_score 4.9 with valid proof. -/
def actLowPhi : SovereignAction :=
  { authority := some authA, anchor := some ancA
    proof := some { threshold_tau := mkRat 1 2 }
    verification := some { phi_score := mkRat 49 10 } }

/-- The valid-action scenario: threshold_tau 0.5, phi_score 6.0. -/
def actValid : SovereignAction :=
  { authority := some authA, anchor := some ancA
    proof := some { threshold_tau := mkRat 1 2 }
    verification := some { phi_score := 6 } }

def seedA : HumanSeed := { api_key := "k", genesis_hash := "g" }

/-- A short content with five distinct characters. -/
def cShort : List Char := ['a', 'b', 'c', 'd', 'e']

/-- The terminal refusal message of the loom when curation and repair have
both failed. -/
def noContractiveMsg : String :=
  "Input failed Perspective Intelligence curation (PI ratio exceeded) and Recursive Repair failed."

/-- A turbulent input: 327681 identical characters, whose metric
327681 / 128 exceeds the admissibility bound 10 * 256 by exactly 1 / 128. -/
def wTurbulent : List Char := List.replicate 327681 'a'

/-- The identity hash stand-in used by concrete ledger computations;
injective, as collision resistance is modelled. -/
def hashFnId : List Char → String := fun l => ⟨l⟩

def gene0 : TAS_Gene :=
  { gene_id := "g0", sequence := 0, content := "c0", parent_hash := ""
    mu_manifest := "", phi_score := 0, timestamp := 0, proof := some "zk" }

def gene1 : TAS_Gene :=
  { gene_id := "g1", sequence := 1, content := "c1", parent_hash := "g0|0|c0|||0|0"
    mu_manifest := "", phi_score := 0, timestamp := 0, proof := some "zk" }

def entryA : ITL_Entry := genesisEntry hashFnId gene0

def entryB : ITL_Entry :=
  { gene := gene1, hash := hashFnId (payloadChars gene1)
    signature := "sig-" ++ ⟨(hashFnId (payloadChars gene1)).data.take 8⟩ }

/-- The genesis gene with its content silently rewritten. -/
def gene0Mut : TAS_Gene := { gene0 with content := "HACKED" }

/-- A gene whose sequence and parent hash are both wrong. -/
def geneBothBad : TAS_Gene :=
  { gene_id := "gb", sequence := 5, content := "cb", parent_hash := "wrong"
    mu_manifest := "", phi_score := 0, timestamp := 0, proof := some "zk" }

/-- A gene whose parent hash is correct but whose sequence is wrong. -/
def geneSeqBad : TAS_Gene :=
  { gene_id := "gs", sequence := 7, content := "cs", parent_hash := "g0|0|c0|||0|0"
    mu_manifest := "", phi_score := 0, timestamp := 0, proof := some "zk" }

theorem digitChar_inj_lt : ∀ d < 10, ∀ e < 10,
    Nat.digitChar d = Nat.digitChar e → d = e := by decide

theorem digitChar_ne_dash : ∀ d < 10, Nat.digitChar d ≠ '-' := by decide

theorem map_digitChar_inj : ∀ {l₁ l₂ : List Nat}, (∀ d ∈ l₁, d < 10) →
    (∀ d ∈ l₂, d < 10) → l₁.map Nat.digitChar = l₂.map Nat.digitChar → l₁ = l₂ := by
  intro l₁
  induction l₁ with
  | nil => intro l₂ _ _ h; cases l₂ <;> simp_all
  | cons a t ih =>
    intro l₂ h₁ h₂ h
    cases l₂ with
    | nil => simp_all
    | cons b t₂ =>
      simp only [List.map_cons, List.cons.injEq] at h
      have ha : a < 10 := h₁ a (by simp)
      have hb : b < 10 := h₂ b (by simp)
      have : a = b := digitChar_inj_lt a ha b hb h.1
      subst this
      have : t = t₂ := ih (fun d hd => h₁ d (by simp [hd]))
        (fun d hd => h₂ d (by simp [hd])) h.2
      simp [this]

theorem natSerialAux_eq (fuel : Nat) : ∀ n : Nat, n ≤ fuel →
    natSerialAux fuel n = (Nat.digits 10 n).map Nat.digitChar := by
  induction fuel with
  | zero =>
    intro n hn
    have : n = 0 := by omega
    subst this
    simp [natSerialAux]
  | succ f ih =>
    intro n hn
    by_cases hzero : n = 0
    · subst hzero
      simp [natSerialAux]
    · rw [natSerialAux, if_neg hzero]
      have hdiv : n / 10 ≤ f := by
        have := Nat.div_lt_self (Nat.pos_of_ne_zero hzero) (by norm_num : 1 < 10)
        omega
      rw [ih (n / 10) hdiv]
      rw [Nat.digits_def' (by norm_num : 1 < 10) (Nat.pos_of_ne_zero hzero)]
      simp

theorem natSerial_data_eq (n : Nat) (hn : n ≠ 0) :
    (natSerial n).data = (Nat.digits 10 n).reverse.map Nat.digitChar := by
  simp [natSerial, hn, natSerialAux_eq n n le_rfl, List.map_reverse]

theorem natSerial_zero : natSerial 0 = "0" := rfl

theorem digits_rev_bound (n : Nat) : ∀ d ∈ (Nat.digits 10 n).reverse, d < 10 := by
  intro d hd
  exact Nat.digits_lt_base (by norm_num) (List.mem_reverse.mp hd)

theorem natSerial_ne_zero_str (n : Nat) (hn : n ≠ 0) : natSerial n ≠ "0" := by
  intro h
  have hdata : (natSerial n).data = ['0'] := by rw [h]
  rw [natSerial_data_eq n hn] at hdata
  rcases hrev : (Nat.digits 10 n).reverse with _ | ⟨d, ds⟩
  · rw [hrev] at hdata; simp at hdata
  · rw [hrev] at hdata
    simp only [List.map_cons, List.cons.injEq] at hdata
    have hds : ds = [] := by simpa using hdata.2
    subst hds
    have hd10 : d < 10 := digits_rev_bound n d (by rw [hrev]; simp)
    have hd0 : d = 0 := digitChar_inj_lt d hd10 0 (by norm_num) (by simpa using hdata.1)
    subst hd0
    have hdig : Nat.digits 10 n = [0] := by
      have := congrArg List.reverse hrev
      simpa using this
    have hval := Nat.ofDigits_digits 10 n
    rw [hdig] at hval
    simp [Nat.ofDigits] at hval
    exact hn hval.symm

theorem natSerial_injective : Function.Injective natSerial := by
  intro a b h
  by_cases ha : a = 0 <;> by_cases hb : b = 0
  · omega
  · exact absurd (by rw [← h, ha, natSerial_zero]) (natSerial_ne_zero_str b hb).symm
  · exact absurd (by rw [h, hb, natSerial_zero]) (natSerial_ne_zero_str a ha)
  · have hdata : (natSerial a).data = (natSerial b).data := by rw [h]
    rw [natSerial_data_eq a ha, natSerial_data_eq b hb] at hdata
    have := map_digitChar_inj (digits_rev_bound a) (digits_rev_bound b) hdata
    have := congrArg List.reverse this
    simp only [List.reverse_reverse] at this
    exact Nat.digits.injective 10 this

theorem natSerial_data_ne_dash_cons (n : Nat) (l : List Char) :
    (natSerial n).data ≠ '-' :: l := by
  intro h
  by_cases hn : n = 0
  · subst hn; simp [natSerial_zero] at h
  · rw [natSerial_data_eq n hn] at h
    rcases hrev : (Nat.digits 10 n).reverse with _ | ⟨d, ds⟩
    · rw [hrev] at h; simp at h
    · rw [hrev] at h
      simp only [List.map_cons, List.cons.injEq] at h
      exact digitChar_ne_dash d (digits_rev_bound n d (by rw [hrev]; simp)) h.1

theorem intSerial_injective : Function.Injective intSerial := by
  intro a b h
  cases a with
  | ofNat m =>
    cases b with
    | ofNat k =>
      simp only [intSerial] at h
      exact congrArg Int.ofNat (natSerial_injective h)
    | negSucc k =>
      simp only [intSerial] at h
      have : (natSerial m).data = ("-" ++ natSerial (k + 1)).data := by rw [h]
      rw [String.data_append] at this
      exact absurd this (by apply natSerial_data_ne_dash_cons)
  | negSucc m =>
    cases b with
    | ofNat k =>
      simp only [intSerial] at h
      have : (natSerial k).data = ("-" ++ natSerial (m + 1)).data := by rw [h]
      rw [String.data_append] at this
      exact absurd this (by apply natSerial_data_ne_dash_cons)
    | negSucc k =>
      simp only [intSerial] at h
      have hdata : ("-" ++ natSerial (m + 1)).data = ("-" ++ natSerial (k + 1)).data := by
        rw [h]
      rw [String.data_append, String.data_append] at hdata
      simp only [List.append_cancel_left_eq] at hdata
      have : natSerial (m + 1) = natSerial (k + 1) := by
        apply String.ext
        exact hdata
      have hmk := natSerial_injective this
      have : m = k := by omega
      rw [this]

/-! ### Properties of the curation metric and the apply loop -/

theorem metricQ_nil : metricQ [] = 0 := rfl

theorem metricQ_of_len_zero {c : List Char} (h : c.length = 0) : metricQ c = 0 := by
  simp [metricQ, h]

theorem distinctCount_le_length (c : List Char) : distinctCount c ≤ c.length :=
  List.Sublist.length_le (List.dedup_sublist c)

theorem distinctCount_eq_card (c : List Char) : distinctCount c = c.toFinset.card :=
  (List.card_toFinset c).symm

theorem distinctCount_take_le (n : Nat) (c : List Char) :
    distinctCount (c.take n) ≤ distinctCount c := by
  rw [distinctCount_eq_card, distinctCount_eq_card]
  apply Finset.card_le_card
  intro x hx
  rw [List.mem_toFinset] at hx ⊢
  exact List.take_subset n c hx

theorem metricQ_nonneg (c : List Char) : 0 ≤ metricQ c := by
  unfold metricQ
  split
  · exact le_refl 0
  · positivity

theorem metricQ_pos_of_ne_nil {c : List Char} (h : c ≠ []) : 0 < metricQ c := by
  have hlen : c.length ≠ 0 := by simpa using h
  have hd : 0 < distinctCount c := by
    rcases c with _ | ⟨a, t⟩
    · simp at h
    · have : a ∈ (a :: t).dedup := by
        rw [List.mem_dedup]; simp
      have := List.length_pos.mpr (List.ne_nil_of_mem this)
      simpa [distinctCount] using this
  unfold metricQ
  rw [if_neg hlen]
  have h1 : (0 : ℚ) < (c.length : ℚ) := by exact_mod_cast Nat.pos_of_ne_zero hlen
  have h2 : (0 : ℚ) < (distinctCount c : ℚ) := by exact_mod_cast hd
  have h3 : (0 : ℚ) < ((min c.length 128 : Nat) : ℚ) := by
    have : 0 < min c.length 128 := by
      have := Nat.pos_of_ne_zero hlen; omega
    exact_mod_cast this
  positivity

theorem metricQ_eq_distinct {c : List Char} (h0 : c.length ≠ 0) (h : c.length ≤ 128) :
    metricQ c = (distinctCount c : ℚ) := by
  unfold metricQ
  rw [if_neg h0, min_eq_left h]
  field_simp

theorem metricQ_eq_div {c : List Char} (h : 128 < c.length) :
    metricQ c = (c.length : ℚ) * (distinctCount c : ℚ) / 128 := by
  unfold metricQ
  have h0 : c.length ≠ 0 := by omega
  rw [if_neg h0, min_eq_right (by omega : 128 ≤ c.length)]
  push_cast
  ring

theorem metricQ_take_le (n : Nat) (c : List Char) :
    metricQ (c.take n) ≤ metricQ c := by
  set p := c.take n with hp
  have hlp : p.length ≤ c.length := by
    rw [hp, List.length_take]; omega
  have hdp : distinctCount p ≤ distinctCount c := distinctCount_take_le n c
  by_cases hp0 : p.length = 0
  · rw [metricQ_of_len_zero hp0]; exact metricQ_nonneg c
  · have hc0 : c.length ≠ 0 := by omega
    by_cases hpc : p.length ≤ 128
    · by_cases hcc : c.length ≤ 128
      · rw [metricQ_eq_distinct hp0 hpc, metricQ_eq_distinct hc0 hcc]
        exact_mod_cast hdp
      · rw [metricQ_eq_distinct hp0 hpc, metricQ_eq_div (by omega)]
        have hdc : (distinctCount p : ℚ) ≤ (distinctCount c : ℚ) := by exact_mod_cast hdp
        have hlen : (128 : ℚ) ≤ (c.length : ℚ) := by
          have : (128 : Nat) ≤ c.length := by omega
          exact_mod_cast this
        rw [le_div_iff₀ (by norm_num : (0 : ℚ) < 128)]
        have hdcn : (0 : ℚ) ≤ (distinctCount c : ℚ) := by positivity
        nlinarith
    · have hcc : 128 < c.length := by omega
      rw [metricQ_eq_div (by omega), metricQ_eq_div hcc]
      have h1 : (p.length : ℚ) ≤ (c.length : ℚ) := by exact_mod_cast hlp
      have h2 : (distinctCount p : ℚ) ≤ (distinctCount c : ℚ) := by exact_mod_cast hdp
      have hnum : (p.length : ℚ) * (distinctCount p : ℚ) ≤
          (c.length : ℚ) * (distinctCount c : ℚ) := by
        have ha : (0 : ℚ) ≤ (p.length : ℚ) := by positivity
        have hb : (0 : ℚ) ≤ (distinctCount p : ℚ) := by positivity
        nlinarith
      exact (div_le_div_iff_of_pos_right (by norm_num : (0 : ℚ) < 128)).mpr hnum

theorem applyGo_metric_le (target : ℚ) :
    ∀ fuel iter c, metricQ (applyGo target fuel iter c).1 ≤ metricQ c := by
  intro fuel
  induction fuel with
  | zero => intro iter c; exact le_refl _
  | succ f ih =>
    intro iter c
    rw [applyGo]
    split
    · split
      · exact le_refl _
      · exact le_trans (ih _ _) (metricQ_take_le _ c)
    · exact le_refl _

theorem applyGo_exit (target : ℚ) (htarget : 0 ≤ target) :
    ∀ fuel iter c, iter + fuel = 100 →
      metricQ (applyGo target fuel iter c).1 ≤ target ∨
      (applyGo target fuel iter c).1.length < 50 ∨
      (applyGo target fuel iter c).2 = 100 := by
  intro fuel
  induction fuel with
  | zero =>
    intro iter c hsum
    right; right
    simp [applyGo]; omega
  | succ f ih =>
    intro iter c hsum
    rw [applyGo]
    split
    · split
      · right; left; assumption
      · exact ih (iter + 1) _ (by omega)
    · rename_i hcond
      rw [not_and_or, not_and_or] at hcond
      rcases hcond with h1 | h2 | h3
      · left; simpa using not_lt.mp h1
      · exact absurd (by omega : iter < 100) h2
      · left
        have : c.length = 0 := by omega
        rw [metricQ_of_len_zero this]
        exact htarget

theorem applyGo_short (target : ℚ) (fuel iter : Nat) (c : List Char)
    (h : c.length < 50) : applyGo target (fuel + 1) iter c = (c, iter) := by
  simp only [applyGo]
  by_cases hcond : target < metricQ c ∧ iter < 100 ∧ 0 < c.length
  · rw [if_pos hcond, if_pos h]
  · rw [if_neg hcond]

theorem kQ_nonneg : 0 ≤ kQ := by norm_num [kQ, phiQ]

/-! ### C2: the contraction law of the Banach curation operator -/

/-- C2 (amended): apply never increases the metric, and the contraction
bound metric(apply(c)) ≤ metric(c) * k + ε holds whenever the trimming
loop stops by reaching its target; the loop however also stops when the
content drops under 50 characters (treated as atomic) or at the
100-iteration cap, and then only the non-increase is guaranteed. Empty
content is a fixed point returned unchanged. -/
theorem contraction_law_amended (c : List Char) (h : 0 < metricQ c) :
    metricQ (applyOp c) ≤ metricQ c ∧
    (metricQ (applyOp c) ≤ metricQ c * kQ + epsQ ∨ (applyOp c).length < 50 ∨
      applyIter c = 100) ∧
    applyOp [] = [] := by
  have hempty : applyOp [] = [] := by
    rw [applyOp]
    rw [applyGo_short _ 99 0 [] (by decide)]
  refine ⟨applyGo_metric_le _ 100 0 c, ?_, hempty⟩
  have htarget : 0 ≤ metricQ c * kQ := mul_nonneg (metricQ_nonneg c) kQ_nonneg
  have heps : 0 ≤ epsQ := by norm_num [epsQ]
  rcases applyGo_exit (metricQ c * kQ) htarget 100 0 c (by norm_num) with h1 | h2 | h3
  · left
    calc metricQ (applyOp c) ≤ metricQ c * kQ := h1
      _ ≤ metricQ c * kQ + epsQ := by linarith
  · right; left; exact h2
  · right; right; exact h3

/-- Counterexample for C2: the five-character content abcde has positive
metric 5, yet apply returns it unchanged (its length is under 50), and
5 > 5 * k + ε, violating the claimed contraction bound. -/
theorem contraction_law_cex :
    0 < metricQ cShort ∧
    ¬ (metricQ (applyOp cShort) ≤ metricQ cShort * kQ + epsQ) := by
  have hm : metricQ cShort = 5 := by
    rw [metricQ_eq_distinct (by decide) (by decide)]
    have : distinctCount cShort = 5 := by decide
    rw [this]
    norm_num
  have happ : applyOp cShort = cShort := by
    rw [applyOp]
    rw [applyGo_short _ 99 0 cShort (by decide)]
  rw [happ, hm]
  constructor
  · norm_num
  · norm_num [kQ, phiQ, epsQ]

/-- Witness for C2 at the content abcde, whose metric is positive. -/
theorem contraction_law_witness :
    metricQ (applyOp cShort) ≤ metricQ cShort ∧
    (metricQ (applyOp cShort) ≤ metricQ cShort * kQ + epsQ ∨
      (applyOp cShort).length < 50 ∨ applyIter cShort = 100) ∧
    applyOp [] = [] :=
  contraction_law_amended cShort (metricQ_pos_of_ne_nil (by decide))

/-! ### C5: bounded repair -/

/-- C5: when the micro-kernel admits the input but the initial curation
admissibility check fails (which happens exactly when the PI ratio
metric / diameter exceeds 10), the loom invokes the repair engine exactly
once; recompute returns a gene precisely when the re-curated metric
contracts to at most metric(failed) * k; and when recompute returns
nothing, the loom refuses with the terminal no-contractive-path error and
no further repair attempt. -/
theorem bounded_repair (raw : List Char) (seed : HumanSeed)
    (hv : taskVerify raw = true) (hc : curate raw seed = none) :
    (execute_loom raw seed).repairCalls = 1 ∧
    (curate raw seed = none ↔ 10 < metricQ raw / curateDiameter) ∧
    ((recompute raw seed).isSome = true ↔ metricQ (applyOp raw) ≤ metricQ raw * kQ) ∧
    (recompute raw seed = none →
      (execute_loom raw seed).result = Except.error noContractiveMsg) := by
  have hloom : ∀ P : LoomOutcome → Prop,
      (∀ g : VerifiedGene, P { result := weaveStep g.content raw seed, repairCalls := 1 }) →
      P { result := Except.error noContractiveMsg, repairCalls := 1 } →
      P (execute_loom raw seed) := by
    intro P hsome hnone
    unfold execute_loom
    rw [if_neg (by simp [hv])]
    rw [hc]
    cases hr : recompute raw seed with
    | some g => exact hsome g
    | none => exact hnone
  refine ⟨?_, ?_, ?_, ?_⟩
  · exact hloom (fun o => o.repairCalls = 1) (fun g => rfl) rfl
  · constructor
    · intro hnone
      by_contra hlt
      unfold curate at hnone
      rw [if_neg hlt] at hnone
      simp at hnone
    · intro hgt
      unfold curate
      rw [if_pos hgt]
  · unfold recompute
    dsimp only
    split
    · rename_i hle
      simp only [Option.isSome_some, true_iff]
      exact hle
    · rename_i hgt
      simp only [Option.isSome_none, Bool.false_eq_true, false_iff]
      exact hgt
  · intro hnone
    unfold execute_loom
    rw [if_neg (by simp [hv])]
    rw [hc, hnone]
    rfl

theorem length_wTurbulent : wTurbulent.length = 327681 := by
  unfold wTurbulent
  rw [List.length_replicate]

theorem distinctCount_wTurbulent : distinctCount wTurbulent = 1 := by
  unfold distinctCount wTurbulent
  rw [List.replicate_dedup (by norm_num)]
  rfl

theorem metricQ_wTurbulent : metricQ wTurbulent = (327681 : ℚ) / 128 := by
  rw [metricQ_eq_div (by rw [length_wTurbulent]; norm_num)]
  rw [length_wTurbulent, distinctCount_wTurbulent]
  norm_num

theorem curate_wTurbulent : curate wTurbulent seedA = none := by
  unfold curate
  rw [if_pos]
  rw [metricQ_wTurbulent]
  unfold curateDiameter
  norm_num

theorem dropWhile_replicate_of_neg {p : Char → Bool} {a : Char} (h : p a = false) :
    ∀ n, List.dropWhile p (List.replicate n a) = List.replicate n a := by
  intro n
  cases n with
  | zero => rfl
  | succ m => simp [List.replicate_succ, List.dropWhile_cons, h]

theorem jsTrimList_wTurbulent : jsTrimList wTurbulent = wTurbulent := by
  unfold jsTrimList wTurbulent
  rw [dropWhile_replicate_of_neg (by decide)]
  rw [List.reverse_replicate]
  rw [dropWhile_replicate_of_neg (by decide)]
  rw [List.reverse_replicate]

theorem hasSub_replicate_ne (c : Char) (tl : List Char) (a : Char)
    (h : (c == a) = false) :
    ∀ n, hasSub (c :: tl) (List.replicate n a) = false := by
  intro n
  induction n with
  | zero => rfl
  | succ m ih =>
    rw [List.replicate_succ]
    unfold hasSub
    rw [ih]
    simp [List.isPrefixOf, h]

theorem violationHit_wTurbulent : violationHit wTurbulent = false := by
  unfold violationHit wTurbulent
  rw [List.map_replicate]
  have hlow : jsToLower 'a' = 'a' := by decide
  rw [hlow]
  have hd : "destroy".toList = 'd' :: "estroy".toList := rfl
  have hv : "violate".toList = 'v' :: "iolate".toList := rfl
  have hdr : "drift".toList = 'd' :: "rift".toList := rfl
  rw [hd, hv, hdr]
  dsimp only
  rw [hasSub_replicate_ne _ _ _ (by decide), hasSub_replicate_ne _ _ _ (by decide),
    hasSub_replicate_ne _ _ _ (by decide)]
  rfl

theorem taskVerify_wTurbulent : taskVerify wTurbulent = true := by
  unfold taskVerify
  rw [jsTrimList_wTurbulent, length_wTurbulent]
  rw [if_neg (by norm_num)]
  rw [violationHit_wTurbulent]
  rfl

/-- Witness for C5 at a concrete turbulent input whose PI ratio exceeds
the admissibility bound. -/
theorem bounded_repair_witness :
    (execute_loom wTurbulent seedA).repairCalls = 1 ∧
    (curate wTurbulent seedA = none ↔ 10 < metricQ wTurbulent / curateDiameter) ∧
    ((recompute wTurbulent seedA).isSome = true ↔
      metricQ (applyOp wTurbulent) ≤ metricQ wTurbulent * kQ) ∧
    (recompute wTurbulent seedA = none →
      (execute_loom wTurbulent seedA).result = Except.error noContractiveMsg) :=
  bounded_repair wTurbulent seedA taskVerify_wTurbulent curate_wTurbulent

/-! ### Ledger infrastructure lemmas -/

theorem payloadChars_ne_of_diffOne {g g' : TAS_Gene} (h : DiffOneField g g') :
    payloadChars g ≠ payloadChars g' := by
  intro heq
  unfold payloadChars at heq
  rcases h with ⟨h1, h2, h3, h4, h5, h6, h7⟩ | ⟨h1, h2, h3, h4, h5, h6, h7⟩ |
    ⟨h1, h2, h3, h4, h5, h6, h7⟩ | ⟨h1, h2, h3, h4, h5, h6, h7⟩ |
    ⟨h1, h2, h3, h4, h5, h6, h7⟩ | ⟨h1, h2, h3, h4, h5, h6, h7⟩ |
    ⟨h1, h2, h3, h4, h5, h6, h7⟩
  · rw [h2, h3, h4, h5, h6, h7] at heq
    simp only [List.append_cancel_left_eq, List.append_cancel_right_eq, List.cons.injEq,
      eq_self_iff_true, true_and, and_true] at heq
    exact h1 (String.ext heq.symm)
  · rw [h1, h3, h4, h5, h6, h7] at heq
    simp only [List.append_cancel_left_eq, List.append_cancel_right_eq, List.cons.injEq,
      eq_self_iff_true, true_and, and_true] at heq
    exact h2 (intSerial_injective (String.ext heq.symm))
  · rw [h1, h2, h4, h5, h6, h7] at heq
    simp only [List.append_cancel_left_eq, List.append_cancel_right_eq, List.cons.injEq,
      eq_self_iff_true, true_and, and_true] at heq
    exact h3 (String.ext heq.symm)
  · rw [h1, h2, h3, h5, h6, h7] at heq
    simp only [List.append_cancel_left_eq, List.append_cancel_right_eq, List.cons.injEq,
      eq_self_iff_true, true_and, and_true] at heq
    exact h4 (String.ext heq.symm)
  · rw [h1, h2, h3, h4, h6, h7] at heq
    simp only [List.append_cancel_left_eq, List.append_cancel_right_eq, List.cons.injEq,
      eq_self_iff_true, true_and, and_true] at heq
    exact h5 (String.ext heq.symm)
  · rw [h1, h2, h3, h4, h5, h7] at heq
    simp only [List.append_cancel_left_eq, List.append_cancel_right_eq, List.cons.injEq,
      eq_self_iff_true, true_and, and_true] at heq
    exact h6 (intSerial_injective (String.ext heq.symm))
  · rw [h1, h2, h3, h4, h5, h6] at heq
    simp only [List.append_cancel_left_eq, List.append_cancel_right_eq, List.cons.injEq,
      eq_self_iff_true, true_and, and_true] at heq
    exact h7 (intSerial_injective (String.ext heq.symm))

theorem verifyFrom_iff (hashFn : List Char → String) (prev : ITL_Entry)
    (l : List ITL_Entry) :
    verifyFrom hashFn prev l = true ↔ List.Chain (chainR hashFn) prev l := by
  induction l generalizing prev with
  | nil => simp [verifyFrom]
  | cons c rest ih =>
    simp only [verifyFrom, chainCheck, Bool.and_eq_true, beq_iff_eq, List.chain_cons,
      ih, chainR]

theorem verifyChain_iff (hashFn : List Char → String) (l : List ITL_Entry) :
    verifyChain hashFn l = true ↔ List.Chain' (chainR hashFn) l := by
  cases l with
  | nil => simp [verifyChain, List.Chain']
  | cons e rest => simp [verifyChain, List.Chain', verifyFrom_iff]

theorem append_wf (hashFn : List Char → String) {l l2 : List ITL_Entry} {g : TAS_Gene}
    (hwf : WellFormedLedger hashFn l) (h : append hashFn l g = .ok l2) :
    WellFormedLedger hashFn l2 := by
  unfold append at h
  dsimp only at h
  cases hlast : l.getLast? with
  | none =>
    rw [hlast] at h
    dsimp only at h
    have hnil : l = [] := by simpa using hlast
    subst hnil
    simp only [List.nil_append] at h
    injection h with h
    subst h
    constructor
    · exact List.chain'_singleton _
    · intro e he
      simp only [List.mem_singleton] at he
      subst he
      rfl
  | some last =>
    rw [hlast] at h
    dsimp only at h
    by_cases hpar : g.parent_hash ≠ last.hash
    · rw [if_pos hpar] at h; exact absurd h (by simp)
    · rw [if_neg hpar] at h
      by_cases hseq : g.sequence ≠ last.gene.sequence + 1
      · rw [if_pos hseq] at h; exact absurd h (by simp)
      · rw [if_neg hseq] at h
        by_cases hproof : g.proof = none
        · rw [if_pos hproof] at h; exact absurd h (by simp)
        · rw [if_neg hproof] at h
          injection h with h
          subst h
          rw [not_not] at hpar
          constructor
          · rw [List.chain'_append]
            refine ⟨hwf.1, List.chain'_singleton _, ?_⟩
            intro x hx y hy
            rw [hlast] at hx
            simp only [Option.mem_some_iff] at hx
            simp only [List.head?_cons, Option.mem_some_iff] at hy
            subst hx
            subst hy
            exact ⟨hpar, rfl⟩
          · intro e he
            rcases List.mem_append.mp he with hmem | hmem
            · exact hwf.2 e hmem
            · simp only [List.mem_singleton] at hmem
              subst hmem
              rfl

theorem foldlM_append_wf (hashFn : List Char → String) :
    ∀ (gs : List TAS_Gene) (acc l : List ITL_Entry),
      WellFormedLedger hashFn acc →
      List.foldlM (append hashFn) acc gs = .ok l →
      WellFormedLedger hashFn l := by
  intro gs
  induction gs with
  | nil =>
    intro acc l hwf h
    simp only [List.foldlM_nil, pure, Except.pure] at h
    injection h with h
    rwa [← h]
  | cons g gs ih =>
    intro acc l hwf h
    rw [List.foldlM_cons] at h
    cases happ : append hashFn acc g with
    | error e =>
      rw [happ] at h
      simp [Bind.bind, Except.bind] at h
    | ok acc2 =>
      rw [happ] at h
      simp only [Bind.bind, Except.bind] at h
      exact ih acc2 l (append_wf hashFn hwf happ) h

theorem appendAll_wf (hashFn : List Char → String) {gs : List TAS_Gene}
    {l : List ITL_Entry} (h : appendAll hashFn gs = .ok l) :
    WellFormedLedger hashFn l :=
  foldlM_append_wf hashFn gs [] l ⟨List.chain'_nil, by intro e he; cases he⟩ h

theorem verifyChain_false_of_pair (hashFn : List Char → String)
    {l2 : List ITL_Entry} (j : Nat) (hj : j < l2.length - 1)
    (hviol : ¬ chainR hashFn (l2.get ⟨j, by omega⟩) (l2.get ⟨j + 1, by omega⟩)) :
    verifyChain hashFn l2 = false := by
  by_contra hcon
  rw [Bool.not_eq_false] at hcon
  exact hviol (List.chain'_iff_get.mp ((verifyChain_iff _ _).mp hcon) j hj)

theorem verifyChain_set_true (hashFn : List Char → String) {l : List ITL_Entry}
    (hch : List.Chain' (chainR hashFn) l) (i : Nat) (hi : i < l.length)
    (e' : ITL_Entry) (hhash : e'.hash = l[i].hash)
    (hprev : 1 ≤ i → e'.gene.parent_hash = l[i].gene.parent_hash ∧
      e'.hash = calculateHash hashFn e'.gene) :
    verifyChain hashFn (l.set i e') = true := by
  rw [verifyChain_iff, List.chain'_iff_get]
  intro j hj
  rw [List.length_set] at hj
  have horig := List.chain'_iff_get.mp hch j (by omega)
  simp only [List.get_eq_getElem] at horig ⊢
  rw [List.getElem_set, List.getElem_set]
  by_cases hij : i = j
  · rw [if_pos hij, if_neg (by omega : ¬ i = j + 1)]
    subst hij
    exact ⟨horig.1.trans hhash.symm, horig.2⟩
  · rw [if_neg hij]
    by_cases hij1 : i = j + 1
    · rw [if_pos hij1]
      have hge : 1 ≤ i := by omega
      subst hij1
      exact ⟨(hprev hge).1.trans horig.1, (hprev hge).2⟩
    · rw [if_neg hij1]
      exact horig

/-! ### C3: chain integrity -/

/-- C3 (amended): for every ledger built by successful appends verifyChain
succeeds; changing any of the seven serialized gene fields, or the stored
hash, of any entry other than the genesis entry makes verifyChain fail
(given collision resistance of the hash); but mutations of the genesis
entry gene, of any signature field, and of any proof object are never
detected, and a mutated genesis stored hash is detected only through the
second entry when one exists. -/
theorem chain_integrity_amended (hashFn : List Char → String)
    (hInj : Function.Injective hashFn) (gs : List TAS_Gene) (l : List ITL_Entry)
    (hb : appendAll hashFn gs = .ok l) :
    verifyChain hashFn l = true ∧
    (∀ (i : Nat) (hi : i < l.length), 1 ≤ i → ∀ g' : TAS_Gene,
      DiffOneField l[i].gene g' →
      verifyChain hashFn (l.set i { l[i] with gene := g' }) = false) ∧
    (∀ (i : Nat) (hi : i < l.length), 1 ≤ i → ∀ hsh : String, hsh ≠ l[i].hash →
      verifyChain hashFn (l.set i { l[i] with hash := hsh }) = false) ∧
    (∀ (hi : 0 < l.length) (g' : TAS_Gene),
      verifyChain hashFn (l.set 0 { l[0] with gene := g' }) = true) ∧
    (∀ (i : Nat) (hi : i < l.length) (sig : String),
      verifyChain hashFn (l.set i { l[i] with signature := sig }) = true) ∧
    (∀ (i : Nat) (hi : i < l.length) (pr : Option String),
      verifyChain hashFn
        (l.set i { l[i] with gene := { l[i].gene with proof := pr } }) = true) ∧
    (∀ (_ : 1 < l.length) (hsh : String), hsh ≠ l[0].hash →
      verifyChain hashFn (l.set 0 { l[0] with hash := hsh }) = false) := by
  obtain ⟨hch, hhe⟩ := appendAll_wf hashFn hb
  refine ⟨(verifyChain_iff hashFn l).mpr hch, ?_, ?_, ?_, ?_, ?_, ?_⟩
  · intro i hi h1 g' hdiff
    refine verifyChain_false_of_pair hashFn (i - 1) ?_ ?_
    · rw [List.length_set]; omega
    intro hrel
    simp only [List.get_eq_getElem] at hrel
    have hi1 : i - 1 + 1 = i := by omega
    simp only [hi1] at hrel
    rw [List.getElem_set_ne (by omega : i ≠ i - 1),
      List.getElem_set_self (by rw [List.length_set]; exact hi)] at hrel
    have h2 : l[i].hash = calculateHash hashFn g' := hrel.2
    have hold : l[i].hash = calculateHash hashFn l[i].gene :=
      hhe _ (List.getElem_mem hi)
    have hpay : payloadChars l[i].gene = payloadChars g' := hInj (hold.symm.trans h2)
    exact payloadChars_ne_of_diffOne hdiff hpay
  · intro i hi h1 hsh hne
    refine verifyChain_false_of_pair hashFn (i - 1) ?_ ?_
    · rw [List.length_set]; omega
    intro hrel
    simp only [List.get_eq_getElem] at hrel
    have hi1 : i - 1 + 1 = i := by omega
    simp only [hi1] at hrel
    rw [List.getElem_set_ne (by omega : i ≠ i - 1),
      List.getElem_set_self (by rw [List.length_set]; exact hi)] at hrel
    have h2 : hsh = calculateHash hashFn l[i].gene := hrel.2
    have hold : l[i].hash = calculateHash hashFn l[i].gene :=
      hhe _ (List.getElem_mem hi)
    exact hne (h2.trans hold.symm)
  · intro hi g'
    exact verifyChain_set_true hashFn hch 0 hi _ rfl (by omega)
  · intro i hi sig
    refine verifyChain_set_true hashFn hch i hi _ rfl ?_
    intro _
    have hmem : l[i] ∈ l := List.getElem_mem hi
    exact ⟨rfl, hhe l[i] hmem⟩
  · intro i hi pr
    refine verifyChain_set_true hashFn hch i hi _ rfl ?_
    intro _
    have hmem : l[i] ∈ l := List.getElem_mem hi
    exact ⟨rfl, hhe l[i] hmem⟩
  · intro hlen hsh hne
    refine verifyChain_false_of_pair hashFn 0 ?_ ?_
    · rw [List.length_set]; omega
    intro hrel
    simp only [List.get_eq_getElem] at hrel
    rw [List.getElem_set_self (by rw [List.length_set]; omega),
      List.getElem_set_ne (by omega : (0 : Nat) ≠ 0 + 1)] at hrel
    have h2 : l[0 + 1].gene.parent_hash = hsh := hrel.1
    have horig := List.chain'_iff_get.mp hch 0 (by omega)
    simp only [List.get_eq_getElem] at horig
    exact hne (h2.symm.trans horig.1)

/-- Counterexample for C3: in a two-entry ledger built by appends,
silently rewriting the genesis gene content, or any signature field,
leaves verifyChain succeeding, because the walk never recomputes the
first entry hash and never inspects signatures. -/
theorem chain_integrity_cex :
    appendAll hashFnId [gene0, gene1] = .ok [entryA, entryB] ∧
    gene0Mut ≠ gene0 ∧
    verifyChain hashFnId [{ entryA with gene := gene0Mut }, entryB] = true ∧
    verifyChain hashFnId [{ entryA with signature := "tampered" }, entryB] = true := by
  decide

/-- Witness for C3 at the concrete two-entry ledger with the identity
serialization as the injective hash. -/
theorem chain_integrity_witness :
    verifyChain hashFnId [entryA, entryB] = true ∧
    (∀ (i : Nat) (hi : i < [entryA, entryB].length), 1 ≤ i → ∀ g' : TAS_Gene,
      DiffOneField [entryA, entryB][i].gene g' →
      verifyChain hashFnId
        ([entryA, entryB].set i { [entryA, entryB][i] with gene := g' }) = false) ∧
    (∀ (i : Nat) (hi : i < [entryA, entryB].length), 1 ≤ i → ∀ hsh : String,
      hsh ≠ [entryA, entryB][i].hash →
      verifyChain hashFnId
        ([entryA, entryB].set i { [entryA, entryB][i] with hash := hsh }) = false) ∧
    (∀ (hi : 0 < [entryA, entryB].length) (g' : TAS_Gene),
      verifyChain hashFnId
        ([entryA, entryB].set 0 { [entryA, entryB][0] with gene := g' }) = true) ∧
    (∀ (i : Nat) (hi : i < [entryA, entryB].length) (sig : String),
      verifyChain hashFnId
        ([entryA, entryB].set i { [entryA, entryB][i] with signature := sig }) = true) ∧
    (∀ (i : Nat) (hi : i < [entryA, entryB].length) (pr : Option String),
      verifyChain hashFnId
        ([entryA, entryB].set i
          { [entryA, entryB][i] with
            gene := { [entryA, entryB][i].gene with proof := pr } }) = true) ∧
    (∀ (_ : 1 < [entryA, entryB].length) (hsh : String),
      hsh ≠ [entryA, entryB][0].hash →
      verifyChain hashFnId
        ([entryA, entryB].set 0 { [entryA, entryB][0] with hash := hsh }) = false) :=
  chain_integrity_amended hashFnId (fun {a b} h => congrArg String.data h)
    [gene0, gene1] [entryA, entryB] (by decide)

/-! ### C4: sequence monotonicity -/

/-- C4 (amended): on a non-empty ledger, a gene whose sequence is not
tip.sequence + 1 and whose parent hash matches the tip is rejected with
the sequence violation; but when the parent hash also fails to match, the
continuity check fires first and the rejection is the continuity
violation instead. Either way the append returns an error and pushes
nothing. -/
theorem sequence_monotonicity_amended (hashFn : List Char → String)
    (l : List ITL_Entry) (e : ITL_Entry) (htip : getTip l = some e) (g : TAS_Gene)
    (hseq : g.sequence ≠ e.gene.sequence + 1) :
    (g.parent_hash = e.hash →
      append hashFn l g = .error LedgerError.sequenceViolation) ∧
    (g.parent_hash ≠ e.hash →
      append hashFn l g = .error LedgerError.continuityViolation) := by
  unfold getTip at htip
  unfold append
  dsimp only
  rw [htip]
  dsimp only
  constructor
  · intro hpar
    rw [if_neg (not_not_intro hpar), if_pos hseq]
  · intro hpar
    rw [if_pos hpar]

/-- Counterexample for C4: a gene with both a wrong sequence and a wrong
parent hash is rejected with the continuity violation, not the sequence
violation. -/
theorem sequence_monotonicity_cex :
    geneBothBad.sequence ≠ gene0.sequence + 1 ∧
    append hashFnId [entryA] geneBothBad = .error LedgerError.continuityViolation ∧
    LedgerError.continuityViolation ≠ LedgerError.sequenceViolation := by decide

/-- Witness for C4 at a concrete one-entry ledger and a gene with correct
parent hash but sequence 7. -/
theorem sequence_monotonicity_witness :
    (geneSeqBad.parent_hash = entryA.hash →
      append hashFnId [entryA] geneSeqBad = .error LedgerError.sequenceViolation) ∧
    (geneSeqBad.parent_hash ≠ entryA.hash →
      append hashFnId [entryA] geneSeqBad = .error LedgerError.continuityViolation) :=
  sequence_monotonicity_amended hashFnId [entryA] entryA rfl geneSeqBad (by decide)

/-! ### C6: genesis append -/

/-- C6: appending any first gene to an empty ledger succeeds
unconditionally (arbitrary parent hash, sequence and proof), and that
gene becomes the tip. -/
theorem genesis_append (hashFn : List Char → String) (g : TAS_Gene) :
    append hashFn [] g = .ok [genesisEntry hashFn g] ∧
    getTip [genesisEntry hashFn g] = some (genesisEntry hashFn g) ∧
    (genesisEntry hashFn g).gene = g :=
  ⟨rfl, rfl, rfl⟩

/-! ### C10 and C1: the quiescent sufficiency gate -/

/-- C10: for every state s, processRequest with a null request returns a
QUIESCENT_NOOP whose newState is exactly s; no receipt is emitted and the
state is unchanged. -/
theorem quiescent_noop (canon : QSRequest → Option String) (now : Nat) (s : QSState) :
    processRequest canon now none s = QSResult.quiescentNoop s := rfl

/-- C1: every refusal of processRequest, whether from canonicalization
failure, inadmissibility, or the emission gate, returns the input state
unchanged, and the refusal receipt records equal state hashes before and
after. -/
theorem refusal_state_preserving (canon : QSRequest → Option String) (now : Nat)
    (req : QSRequest) (state : QSState) (r : SignedReceipt) (ns : QSState)
    (h : processRequest canon now (some req) state = QSResult.refusalReceipt r ns) :
    ns = state ∧ r.stateHashBefore = r.stateHashAfter := by
  simp only [processRequest] at h
  cases hcanon : canon req with
  | none =>
    rw [hcanon] at h
    cases h
    exact ⟨rfl, rfl⟩
  | some rh =>
    rw [hcanon] at h
    cases hadm : checkAdmissibility req state with
    | some reason =>
      rw [hadm] at h
      cases h
      exact ⟨rfl, rfl⟩
    | none =>
      rw [hadm] at h
      simp only [] at h
      by_cases hgate : req.actionType ≠ "GENERATE_ARTIFACT" ∧
          0 < (executeDeterministically req state).2.length
      · rw [if_pos hgate] at h
        cases h
        exact ⟨rfl, rfl⟩
      · rw [if_neg hgate] at h
        cases h

/-- Witness for C1: a concrete canonicalization failure is refused with
the state returned unchanged and equal state hashes. -/
theorem refusal_state_preserving_witness :
    qsStateA = qsStateA ∧
    (signReceipt "REFUSAL" "INVALID_CANONICALIZATION" qsStateA qsStateA
        (some "Canonicalization failed") none 0).stateHashBefore =
      (signReceipt "REFUSAL" "INVALID_CANONICALIZATION" qsStateA qsStateA
        (some "Canonicalization failed") none 0).stateHashAfter :=
  refusal_state_preserving canonNone 0 qsReqA qsStateA _ _ rfl

/-! ### C7 and C8: the sovereign action validator -/

/-- C7 (amended): with authority, revocation reference and anchor valid,
an absent proof is rejected with MISSING_PROOF and threshold_tau above 1.0
is rejected with HAMILTONIAN_DRIFT, but the validator enforces no lower
bound: every threshold_tau at most 1.0, including zero and negative
values, passes the proof check. -/
theorem proof_threshold_amended (a : SovereignAction) (auth : SovereignAuthority)
    (anc : SovereignAnchor) (hauth : a.authority = some auth)
    (hrev : isBlankStr auth.revocation_ref = false)
    (hanc : a.anchor = some anc)
    (hpar : jsFalsyStr anc.parent_hash = false)
    (hpay : jsFalsyStr anc.payload_hash = false) :
    (a.proof = none → validateSovereignAction a = some "MISSING_PROOF") ∧
    (∀ p, a.proof = some p → 1 < p.threshold_tau →
      validateSovereignAction a = some "HAMILTONIAN_DRIFT") ∧
    (∀ p, a.proof = some p → p.threshold_tau ≤ 1 →
      validateSovereignAction a ≠ some "MISSING_PROOF" ∧
      validateSovereignAction a ≠ some "HAMILTONIAN_DRIFT") := by
  refine ⟨?_, ?_, ?_⟩
  · intro hp
    simp [validateSovereignAction, hauth, hrev, hanc, hpar, hpay, hp]
  · intro p hp htau
    simp [validateSovereignAction, hauth, hrev, hanc, hpar, hpay, hp, htau]
  · intro p hp htau
    have htau2 : ¬(1 < p.threshold_tau) := not_lt.mpr htau
    cases hver : a.verification with
    | none =>
      constructor <;>
        simp [validateSovereignAction, hauth, hrev, hanc, hpar, hpay, hp, htau2, hver]
    | some v =>
      by_cases hphi : v.phi_score < 5
      · constructor <;>
          simp [validateSovereignAction, hauth, hrev, hanc, hpar, hpay, hp, htau2, hver, hphi]
      · constructor <;>
          simp [validateSovereignAction, hauth, hrev, hanc, hpar, hpay, hp, htau2, hver, hphi]

/-- Counterexample for C7: the action with threshold_tau 0, outside the
claimed admission window (0, 1.0], is accepted by the validator with no
violation rather than rejected. -/
theorem proof_threshold_cex : validateSovereignAction actZeroTau = none := by decide

/-- Witness for C7 at the drift scenario action (threshold_tau 1.5). -/
theorem proof_threshold_witness :
    (actDrift.proof = none → validateSovereignAction actDrift = some "MISSING_PROOF") ∧
    (∀ p, actDrift.proof = some p → 1 < p.threshold_tau →
      validateSovereignAction actDrift = some "HAMILTONIAN_DRIFT") ∧
    (∀ p, actDrift.proof = some p → p.threshold_tau ≤ 1 →
      validateSovereignAction actDrift ≠ some "MISSING_PROOF" ∧
      validateSovereignAction actDrift ≠ some "HAMILTONIAN_DRIFT") :=
  proof_threshold_amended actDrift authA ancA rfl (by decide) rfl (by decide) (by decide)

/-- C8 (amended): with all earlier checks passing and verification
present, phi_score below 5.0 is rejected with the violation code
LOW_PHI_SCORE (the source has no LOW_RESONANCE code), and phi_score at
least 5.0 is accepted with no violation. -/
theorem low_phi_rejection_amended (a : SovereignAction) (auth : SovereignAuthority)
    (anc : SovereignAnchor) (p : SovereignProof)
    (hauth : a.authority = some auth)
    (hrev : isBlankStr auth.revocation_ref = false)
    (hanc : a.anchor = some anc)
    (hpar : jsFalsyStr anc.parent_hash = false)
    (hpay : jsFalsyStr anc.payload_hash = false)
    (hp : a.proof = some p) (htau : p.threshold_tau ≤ 1) :
    (∀ v, a.verification = some v → v.phi_score < 5 →
      validateSovereignAction a = some "LOW_PHI_SCORE") ∧
    (∀ v, a.verification = some v → 5 ≤ v.phi_score →
      validateSovereignAction a = none) := by
  have htau2 : ¬(1 < p.threshold_tau) := not_lt.mpr htau
  constructor
  · intro v hver hphi
    simp [validateSovereignAction, hauth, hrev, hanc, hpar, hpay, hp, htau2, hver, hphi]
  · intro v hver hphi
    have hphi2 : ¬(v.phi_score < 5) := not_lt.mpr hphi
    simp [validateSovereignAction, hauth, hrev, hanc, hpar, hpay, hp, htau2, hver, hphi2]

/-- Counterexample for C8: the low-resonance scenario action (phi_score
4.9) is rejected, but with the code LOW_PHI_SCORE, not LOW_RESONANCE. -/
theorem low_phi_rejection_cex :
    validateSovereignAction actLowPhi = some "LOW_PHI_SCORE" ∧
    validateSovereignAction actLowPhi ≠ some "LOW_RESONANCE" := by decide

/-- Witness for C8 at the valid scenario action (threshold_tau 0.5,
phi_score 6.0). -/
theorem low_phi_rejection_witness :
    (∀ v, actValid.verification = some v → v.phi_score < 5 →
      validateSovereignAction actValid = some "LOW_PHI_SCORE") ∧
    (∀ v, actValid.verification = some v → 5 ≤ v.phi_score →
      validateSovereignAction actValid = none) :=
  low_phi_rejection_amended actValid authA ancA { threshold_tau := mkRat 1 2 }
    rfl (by decide) rfl (by decide) (by decide) rfl (by decide)

/-! ### C9: the sincerity filter of the micro-kernel -/

/-- C9: every prompt that is empty, whitespace-only, or contains destroy,
violate or drift in any letter case fails TASKMicroKernel.verify, and
evaluate_cognitive_stream consequently returns a silence result for it,
never a verified output. -/
theorem sincerity_filter (p : List Char)
    (h : (jsTrimList p).length = 0 ∨ violationHit p = true) :
    taskVerify p = false ∧
    ∀ (anchorOffline : Bool) (seed : HumanSeed),
      (evaluateCognitiveStream anchorOffline seed p).isSilence = true := by
  have hv : taskVerify p = false := by
    unfold taskVerify
    rcases h with h | h
    · simp [h]
    · by_cases htrim : (jsTrimList p).length = 0
      · simp [htrim]
      · simp [htrim, h]
  refine ⟨hv, ?_⟩
  intro anchorOffline seed
  unfold evaluateCognitiveStream
  cases anchorOffline with
  | true => simp [InterceptResult.isSilence]
  | false =>
    simp only [Bool.false_eq_true, if_false]
    unfold execute_loom
    rw [if_pos hv]
    simp [InterceptResult.isSilence]

/-- Witness for C9 at the concrete prompt drift, with the anchor online. -/
theorem sincerity_filter_witness :
    taskVerify "drift".toList = false ∧
    (evaluateCognitiveStream false seedA "drift".toList).isSilence = true :=
  ⟨(sincerity_filter "drift".toList (Or.inr (by decide))).1,
    (sincerity_filter "drift".toList (Or.inr (by decide))).2 false seedA⟩

end Spec2Proof
